import Mathlib

/-! Verification development for `scratch/qos4_temp/main.cc`.

The program builds an ns-3 simulation of a data-centre style network: one core
switch, four aggregation switches, four edge switches (the first one being the
border switch the servers attach to), two servers and `clients` client hosts per
client switch.  Two OpenFlow controllers manage the switches: a QoS controller
and a learning controller.

The first part of this file embeds the topology construction of `main` as
explicit state passing over the ns-3 objects it manipulates (nodes, CSMA
channels, net devices, containers, switch installations, IPv4 address
assignment).  The second part models the two decision policies of the QoS
controller, whose implementation (`qos-controller.h`) is not part of the
sources at hand.
-/

namespace Qos4

/-! ## ns-3 objects -/

/-- A `NodeContainer` is an ordered list of nodes; a node is identified by its
ns-3 node id, i.e. its rank in creation order. -/
abbrev NodeContainer := List Nat

/-- A CSMA channel created by `CsmaHelper::Install` on a two-node container,
together with the two nodes it joins (`nodeA` is the first node of the
container, `nodeB` the second). -/
structure CsmaChannel where
  dataRate : Nat
  nodeA : Nat
  nodeB : Nat
deriving DecidableEq, Repr

/-- A CSMA net device: the node it was created on and the index of the channel
it is attached to. -/
structure NetDevice where
  node : Nat
  channel : Nat
deriving DecidableEq, Repr

/-- A `NetDeviceContainer` is an ordered list of devices. -/
abbrev NetDeviceContainer := List NetDevice

/-- One `InstallSwitch (node, ports)` call on an OpenFlow helper. -/
structure SwitchInstall where
  node : Nat
  ports : NetDeviceContainer
deriving DecidableEq, Repr

/-- Data rate `"100Mbps"` in bit/s. -/
def rate100Mbps : Nat := 100000000

/-- Data rate `"10Mbps"` in bit/s. -/
def rate10Mbps : Nat := 10000000

/-- Default `DataRate` attribute of an ns-3 `CsmaChannel` (`0xffffffff` bit/s),
in effect until `SetChannelAttribute` is called. -/
def rateDefault : Nat := 4294967295

/-- The simulation objects and the local variables of `main` that the topology
construction reads and writes. -/
structure Env where
  /-- number of nodes created so far (size of the ns-3 `NodeList`) -/
  nodeCount : Nat
  /-- every CSMA channel created so far, in creation order -/
  channels : List CsmaChannel
  /-- `DataRate` channel attribute currently configured in `csmaHelper` -/
  csmaDataRate : Nat
  serverNodes : NodeContainer
  switchNodes : NodeContainer
  controllerNodes : NodeContainer
  clientNodes : NodeContainer
  coreNodes : NodeContainer
  aggreNodes : NodeContainer
  hosts : Nat → NodeContainer
  corePorts : Nat → NetDeviceContainer
  aggrePorts : Nat → NetDeviceContainer
  switchPorts : Nat → NetDeviceContainer
  hostDevices : Nat → NetDeviceContainer
  /-- node on which the QoS controller application is installed -/
  qosController : Option Nat
  /-- node on which the learning controller application is installed -/
  learningController : Option Nat
  /-- `InstallSwitch` calls made on `ofQosHelper`, in order -/
  qosSwitches : List SwitchInstall
  /-- `InstallSwitch` calls made on `ofLearningHelper`, in order -/
  learningSwitches : List SwitchInstall

/-- State at the beginning of `main`: no node, no channel, empty containers. -/
def Env.empty : Env where
  nodeCount := 0
  channels := []
  csmaDataRate := rateDefault
  serverNodes := []
  switchNodes := []
  controllerNodes := []
  clientNodes := []
  coreNodes := []
  aggreNodes := []
  hosts := fun _ => []
  corePorts := fun _ => []
  aggrePorts := fun _ => []
  switchPorts := fun _ => []
  hostDevices := fun _ => []
  qosController := none
  learningController := none
  qosSwitches := []
  learningSwitches := []

/-- Fresh node ids handed out by `NodeContainer::Create (n)` when `count` nodes
already exist. -/
def freshNodes (count n : Nat) : NodeContainer := List.range' count n

/-- `c[i].Add (d)` on an array of containers. -/
def addAt {α : Type} (c : Nat → List α) (i : Nat) (d : α) : Nat → List α :=
  fun k => if k = i then c k ++ [d] else c k

/-- C `for (size_t i = start; ...; i++)` executing `count` iterations of a
fallible body. -/
def forLoop {σ : Type} (body : Nat → σ → Option σ) : Nat → Nat → σ → Option σ
  | _, 0, s => some s
  | i, n + 1, s => (body i s).bind (forLoop body (i + 1) n)

/-- `csmaHelper.Install (NodeContainer (a, b))`: creates one channel with the
helper's current data rate and one device on each node; returns the devices in
container order. -/
def csmaInstall (e : Env) (a b : Nat) : Env × NetDeviceContainer :=
  let ch := e.channels.length
  ({ e with channels := e.channels ++ [⟨e.csmaDataRate, a, b⟩] }, [⟨a, ch⟩, ⟨b, ch⟩])

/-! ## `main`: topology construction (lines 102-226) -/

/-- Lines 103-115: node creation. -/
def createNodes (clients : Nat) (e : Env) : Env :=
  let n0 := e.nodeCount
  let n1 := n0 + 2
  let n2 := n1 + 4
  let n3 := n2 + 4
  let n4 := n3 + 2
  let n5 := n4 + 2
  let n6 := n5 + clients
  let n7 := n6 + 2
  let n8 := n7 + clients
  let n9 := n8 + clients
  { e with
    serverNodes := e.serverNodes ++ freshNodes n0 2
    switchNodes := e.switchNodes ++ freshNodes n1 4
    aggreNodes := e.aggreNodes ++ freshNodes n2 4
    coreNodes := e.coreNodes ++ freshNodes n3 2
    controllerNodes := e.controllerNodes ++ freshNodes n4 2
    clientNodes := e.clientNodes ++ freshNodes n5 clients
    hosts := fun k =>
      if k = 0 then e.hosts 0 ++ freshNodes n6 2
      else if k = 1 then e.hosts 1 ++ freshNodes n7 clients
      else if k = 2 then e.hosts 2 ++ freshNodes n8 clients
      else if k = 3 then e.hosts 3 ++ freshNodes n9 clients
      else e.hosts k
    nodeCount := n9 + clients }

/-- Line 149: `csmaHelper.SetChannelAttribute ("DataRate", "100Mbps")`. -/
def setDataRate (e : Env) : Env := { e with csmaDataRate := rate100Mbps }

/-- Lines 157-159: body of the core/aggregation loop. -/
def coreAggreBody (i j : Nat) (e : Env) : Option Env := do
  let a ← e.coreNodes[i]?
  let b ← e.aggreNodes[i]?
  let (e1, link) := csmaInstall e a b
  let d0 ← link[0]?
  let d1 ← link[1]?
  pure { e1 with corePorts := addAt e1.corePorts i d0, aggrePorts := addAt e1.aggrePorts j d1 }

/-- Lines 152-161. -/
def connectCoreAggre (e : Env) : Option Env :=
  forLoop (fun i => forLoop (coreAggreBody i) 0 4) 0 1 e

/-- Lines 166-168: body of the first aggregation/border loop (the loop variable
is not used by the body). -/
def aggreBorderBody (_i : Nat) (e : Env) : Option Env := do
  let a ← e.aggreNodes[0]?
  let b ← e.switchNodes[0]?
  let (e1, link) := csmaInstall e a b
  let d0 ← link[0]?
  let d1 ← link[1]?
  pure { e1 with aggrePorts := addAt e1.aggrePorts 0 d0, switchPorts := addAt e1.switchPorts 0 d1 }

/-- Lines 164-169. -/
def connectAggreBorder (e : Env) : Option Env := forLoop aggreBorderBody 0 2 e

/-- Lines 174-176: body of the second aggregation/edge loop. -/
def aggreSwitchBody (i : Nat) (e : Env) : Option Env := do
  let a ← e.aggreNodes[i]?
  let b ← e.switchNodes[i]?
  let (e1, link) := csmaInstall e a b
  let d0 ← link[0]?
  let d1 ← link[1]?
  pure { e1 with aggrePorts := addAt e1.aggrePorts i d0, switchPorts := addAt e1.switchPorts i d1 }

/-- Lines 172-177. -/
def connectAggreSwitch (e : Env) : Option Env := forLoop aggreSwitchBody 1 3 e

/-- Host `h` is wired to switch `sw`; the host end goes to `hostDevices[i]`, the
switch end to `switchPorts[i]` (lines 182-184 with `i = 0`, lines 192-194). -/
def attachHost (i : Nat) (h sw : Nat) (e : Env) : Env :=
  let r := csmaInstall e h sw
  { r.1 with
    hostDevices := addAt r.1.hostDevices i ⟨h, e.channels.length⟩
    switchPorts := addAt r.1.switchPorts i ⟨sw, e.channels.length⟩ }

/-- Lines 182-184 (`i = 0`) and 192-194: body of the host loops. -/
def hostBody (i j : Nat) (e : Env) : Option Env := do
  let h ← (e.hosts i)[j]?
  let sw ← e.switchNodes[i]?
  let (e1, link) := csmaInstall e h sw
  let d0 ← link[0]?
  let d1 ← link[1]?
  pure { e1 with hostDevices := addAt e1.hostDevices i d0, switchPorts := addAt e1.switchPorts i d1 }

/-- Hosts `hf j`, for `j` ranging over `js`, wired one after the other to
switch `sw` (closed form of the host loop, see `forLoop_hostBody`). -/
def attachAll (i : Nat) (hf : Nat → Nat) (sw : Nat) (js : List Nat) (e : Env) : Env :=
  js.foldl (fun e j => attachHost i (hf j) sw e) e

/-- Lines 180-185. -/
def connectServers (e : Env) : Option Env := forLoop (hostBody 0) 0 2 e

/-- Lines 188-196. -/
def connectHosts (clients : Nat) (e : Env) : Option Env :=
  forLoop (fun i => forLoop (hostBody i) 0 clients) 1 3 e

/-- `ofQosHelper->InstallSwitch (node, ports)`. -/
def qosInstallSwitch (e : Env) (node : Nat) (ports : NetDeviceContainer) : Env :=
  { e with qosSwitches := e.qosSwitches ++ [⟨node, ports⟩] }

/-- `ofLearningHelper->InstallSwitch (node, ports)`. -/
def learningInstallSwitch (e : Env) (node : Nat) (ports : NetDeviceContainer) : Env :=
  { e with learningSwitches := e.learningSwitches ++ [⟨node, ports⟩] }

/-- Lines 200-226: controllers and switch installation. -/
def installSwitches (e : Env) : Option Env := do
  let c0 ← e.controllerNodes[0]?
  let e := { e with qosController := some c0 }
  let c1 ← e.controllerNodes[1]?
  let e := { e with learningController := some c1 }
  let core0 ← e.coreNodes[0]?
  let e := qosInstallSwitch e core0 (e.corePorts 0)
  let a0 ← e.aggreNodes[0]?
  let e := qosInstallSwitch e a0 (e.aggrePorts 0)
  let a1 ← e.aggreNodes[1]?
  let e := qosInstallSwitch e a1 (e.aggrePorts 1)
  let a2 ← e.aggreNodes[2]?
  let e := qosInstallSwitch e a2 (e.aggrePorts 2)
  let a3 ← e.aggreNodes[3]?
  let e := qosInstallSwitch e a3 (e.aggrePorts 3)
  let s0 ← e.switchNodes[0]?
  let e := qosInstallSwitch e s0 (e.switchPorts 0)
  let s1 ← e.switchNodes[1]?
  let e := learningInstallSwitch e s1 (e.switchPorts 1)
  let s2 ← e.switchNodes[2]?
  let e := learningInstallSwitch e s2 (e.switchPorts 2)
  let s3 ← e.switchNodes[3]?
  let e := learningInstallSwitch e s3 (e.switchPorts 3)
  pure e

/-- Lines 102-185 of `main`: nodes, CSMA helper, switch-to-switch links and
server links. -/
def wireSwitches (clients : Nat) : Option Env := do
  let e := createNodes clients Env.empty
  let e := setDataRate e
  let e ← connectCoreAggre e
  let e ← connectAggreBorder e
  let e ← connectAggreSwitch e
  connectServers e

/-- Lines 102-226 of `main`, for a given value of the `clients` parameter. -/
def buildTopology (clients : Nat) : Option Env := do
  let e ← wireSwitches clients
  let e ← connectHosts clients e
  installSwitches e

/-! ## `main`: server addresses and traffic endpoints (lines 228-264) -/

/-- IPv4 address `a.b.c.d` as a 32-bit value. -/
def ipv4 (a b c d : Nat) : Nat := ((a * 256 + b) * 256 + c) * 256 + d

/-- State of an ns-3 `Ipv4AddressHelper`. -/
structure Ipv4AddressHelper where
  network : Nat
  mask : Nat
  address : Nat
  base : Nat
  shift : Nat
  max : Nat
deriving DecidableEq, Repr

/-- Loop of `Ipv4AddressHelper::NumAddressBits`: index of the lowest set bit of
the mask, scanning at most `fuel` bits (`0` when none is set). -/
def numAddressBitsFrom : Nat → Nat → Nat → Nat
  | 0, _, _ => 0
  | fuel + 1, i, maskbits =>
    if maskbits % 2 = 1 then i else numAddressBitsFrom fuel (i + 1) (maskbits / 2)

/-- `Ipv4AddressHelper::NumAddressBits` on a 32-bit mask. -/
def numAddressBits (mask : Nat) : Nat := numAddressBitsFrom 32 0 mask

/-- `Ipv4AddressHelper::SetBase (network, mask, base)`. -/
def setBase (network mask base : Nat) : Ipv4AddressHelper :=
  let shift := numAddressBits mask
  { network := network >>> shift
    mask := mask
    address := base
    base := base
    shift := shift
    max := (1 <<< shift) % 2 ^ 32 - 2 }

/-- `Ipv4AddressHelper::NewAddress`: aborts (`none`) on address overflow,
otherwise returns the current address of the subnet and post-increments it. -/
def newAddress (h : Ipv4AddressHelper) : Option (Nat × Ipv4AddressHelper) :=
  if h.address ≤ h.max then
    some (((h.network <<< h.shift) ||| h.address) % 2 ^ 32, { h with address := h.address + 1 })
  else none

/-- `Ipv4AddressHelper::Assign (devices)`: one new address per device, in
container order; aborts when a device sits on a node without an IPv4 stack. -/
def assign (stack : List Nat) :
    Ipv4AddressHelper → NetDeviceContainer → Option (List (NetDevice × Nat) × Ipv4AddressHelper)
  | h, [] => some ([], h)
  | h, d :: ds =>
    if stack.contains d.node then
      match newAddress h with
      | none => none
      | some (a, h1) =>
        match assign stack h1 ds with
        | none => none
        | some (rest, h2) => some ((d, a) :: rest, h2)
    else none

/-- Lines 229-234: nodes on which `internet.Install` puts a TCP/IP stack. -/
def stackNodes (e : Env) : List Nat := e.hosts 0 ++ e.hosts 1 ++ e.hosts 2 ++ e.hosts 3

/-- Lines 237-240: `SetBase ("10.1.0.0", "255.255.0.0", "0.0.1.2")` followed by
`Assign (hostDevices[0])`; the devices with the addresses they receive. -/
def assignServerAddresses (e : Env) : Option (List (NetDevice × Nat)) :=
  (assign (stackNodes e) (setBase (ipv4 10 1 0 0) (ipv4 255 255 0 0) (ipv4 0 0 1 2))
    (e.hostDevices 0)).map Prod.fst

/-- Line 255: `Ipv4Address serverAddr ("10.1.1.1")`. -/
def serverAddr : Nat := ipv4 10 1 1 1

/-- Line 263: remote endpoint `InetSocketAddress (serverAddr, 9)` of the bulk
senders, as (address, port). -/
def senderRemote : Nat × Nat := (serverAddr, 9)

/-! ## Vocabulary of the topology properties -/

/-- The channel joins nodes `a` and `b` (in either order). -/
def joins (ch : CsmaChannel) (a b : Nat) : Bool :=
  (ch.nodeA == a && ch.nodeB == b) || (ch.nodeA == b && ch.nodeB == a)

/-- Number of links between nodes `a` and `b`. -/
def linkCount (e : Env) (a b : Nat) : Nat := e.channels.countP (fun ch => joins ch a b)

/-- Nodes on which a helper installed an OpenFlow switch. -/
def installedNodes (l : List SwitchInstall) : List Nat := l.map SwitchInstall.node

/-- Device `d` was handed to one of the `InstallSwitch` calls in `l` as a port of
the switch on the node the device sits on. -/
def portInstalled (l : List SwitchInstall) (d : NetDevice) : Bool :=
  l.any (fun sw => sw.node == d.node && sw.ports.contains d)

/-- Device `p` sits on node `n` and its channel is a link between `n` and
`peer`. -/
def endOf (e : Env) (p : NetDevice) (n peer : Nat) : Bool :=
  p.node == n &&
    match e.channels[p.channel]? with
    | some ch => joins ch n peer
    | none => false

/-- Client hosts: the nodes of `hosts[1]`, `hosts[2]` and `hosts[3]`. -/
def clientHosts (e : Env) : List Nat := e.hosts 1 ++ e.hosts 2 ++ e.hosts 3

/-- Some client host is linked to node `n`. -/
def hasClientHost (e : Env) (n : Nat) : Bool :=
  e.channels.any (fun ch =>
    (ch.nodeB == n && (clientHosts e).contains ch.nodeA) ||
    (ch.nodeA == n && (clientHosts e).contains ch.nodeB))

/-- The learning controller manages exactly the switches to which client hosts
are attached. -/
def learningManagesClientSwitches (e : Env) : Prop :=
  ∀ n, n ∈ installedNodes e.learningSwitches ↔ hasClientHost e n = true

/-- Every port handed to an `InstallSwitch` call sits on the node of that
call. -/
def portsOnOwnNode (l : List SwitchInstall) : Bool :=
  l.all (fun sw => sw.ports.all (fun d => d.node == sw.node))

/-- Channels created by lines 152-185, in creation order. -/
def fixedChannels (c : Nat) : List CsmaChannel :=
  [⟨rate100Mbps, 10, 6⟩, ⟨rate100Mbps, 10, 6⟩, ⟨rate100Mbps, 10, 6⟩,
   ⟨rate100Mbps, 10, 6⟩, ⟨rate100Mbps, 6, 2⟩, ⟨rate100Mbps, 6, 2⟩, ⟨rate100Mbps, 7, 3⟩,
   ⟨rate100Mbps, 8, 4⟩, ⟨rate100Mbps, 9, 5⟩, ⟨rate100Mbps, 14 + c, 2⟩,
   ⟨rate100Mbps, 15 + c, 2⟩]

/-- Channels created by the client loop (lines 188-196) for client switch `i`. -/
def clientChannels (c i : Nat) : List CsmaChannel :=
  (List.range' 0 c).map (fun j => ⟨rate100Mbps, 16 + i * c + j, 2 + i⟩)

/-! ## Load Balancing Policy (spec section 4.2)

`main` creates a `QosController` (line 202) whose implementation is declared in
`qos-controller.h`, a file that is not among the sources.  The policy is
modelled from the specification. -/

/-- A backend server of the virtual service: its real address and whether it is
currently reachable. -/
structure Backend where
  address : Nat
  reachable : Bool
deriving DecidableEq, Repr

/-- Modelled from the spec: the state of the Load Balancing Policy of the absent
`QosController`: the configured `backendServers` in order (server `Si` is the
entry at position `i`) and the shared, monotonically advancing rotation
index. -/
structure LoadBalancer where
  servers : List Backend
  rotation : Nat
deriving DecidableEq, Repr

/-- Policy state at controller start-up: rotation index zero. -/
def LoadBalancer.init (servers : List Backend) : LoadBalancer := ⟨servers, 0⟩

/-- Server at position `i` exists and is reachable. -/
def isHealthy (servers : List Backend) (i : Nat) : Bool :=
  match servers[i]? with
  | some b => b.reachable
  | none => false

/-- Positions of the reachable servers, in configuration order. -/
def healthyServers (servers : List Backend) : List Nat :=
  (List.range servers.length).filter (isHealthy servers)

/-- Number of reachable servers at positions below `q`. -/
def healthyBelow (servers : List Backend) (q : Nat) : Nat :=
  ((List.range q).filter (isHealthy servers)).length

/-- Number of reachable positions the rotation index `r` has already passed,
counting every full turn of the rotation. -/
def rotationRank (servers : List Backend) (r : Nat) : Nat :=
  (r / servers.length) * (healthyServers servers).length + healthyBelow servers (r % servers.length)

/-- Modelled from the spec: the rotation of the absent `ChooseServer` ("rotate
through the set of available servers in a round-robin order, skipping any server
currently marked unreachable; the rotation index is shared, monotonically
advancing state").  Starting at rotation index `r`, inspect at most `fuel`
successive positions `r mod N`; the first reachable one is chosen and the
rotation index moves just past it. -/
def rotate (servers : List Backend) : Nat → Nat → Option (Nat × Nat)
  | 0, _ => none
  | fuel + 1, r =>
    if isHealthy servers (r % servers.length) then some (r % servers.length, r + 1)
    else rotate servers fuel (r + 1)

/-- Modelled from the spec: `ChooseServer (connectionIdentity)` of the absent
`QosController`.  Returns the position of the selected server together with the
advanced policy state, or `none` when no server is healthy (the connection is
dropped).  One full turn of the rotation is inspected. -/
def ChooseServer (lb : LoadBalancer) (_connectionIdentity : Nat) : Option (Nat × LoadBalancer) :=
  match rotate lb.servers lb.servers.length lb.rotation with
  | some (i, r) => some (i, { lb with rotation := r })
  | none => none

/-- A sequence of new connections admitted one after the other: the server
chosen for each (`none` for a dropped connection) and the final policy state. -/
def admitConnections : LoadBalancer → List Nat → List (Option Nat) × LoadBalancer
  | lb, [] => ([], lb)
  | lb, c :: cs =>
    match ChooseServer lb c with
    | some (i, lb1) => ((some i) :: (admitConnections lb1 cs).1, (admitConnections lb1 cs).2)
    | none => (none :: (admitConnections lb cs).1, (admitConnections lb cs).2)

/-- Number of connections of a decision trace assigned to server `i`. -/
def assignedTo (trace : List (Option Nat)) (i : Nat) : Nat := trace.count (some i)

/-! ## Link Aggregation Policy (spec section 4.3) -/

/-- Identity of a unidirectional flow. -/
structure FlowKey where
  srcAddr : Nat
  dstAddr : Nat
  protocol : Nat
  srcPort : Nat
  dstPort : Nat
deriving DecidableEq, Repr

/-- One physical member of an aggregated link: its port pair, its
`LinkLoadCounter` and whether a port-status-down event disabled it. -/
structure Member where
  portA : Nat
  portB : Nat
  load : Nat
  disabled : Bool
deriving DecidableEq, Repr

/-- An aggregated link between two switches: its ordered members. -/
structure AggregatedLink where
  switchA : Nat
  switchB : Nat
  members : List Member
deriving DecidableEq, Repr

/-- Modelled from the spec: the state of the Link Aggregation Policy of the
absent `QosController`: the configured aggregated links (identified by their
position) and the estimated weight charged to a member for each new flow. -/
structure LinkAggregation where
  links : List AggregatedLink
  flowWeight : Nat
deriving DecidableEq, Repr

/-- One comparison of the least-load selection: member `m`, at index `i`, against
the best (index, load) seen so far.  Disabled members are skipped; an enabled
member replaces the current best only when strictly less loaded. -/
def better (i : Nat) (m : Member) (best : Option (Nat × Nat)) : Option (Nat × Nat) :=
  if m.disabled then best
  else match best with
    | none => some (i, m.load)
    | some (bi, bl) => if m.load < bl then some (i, m.load) else some (bi, bl)

/-- Left-to-right scan for the least-loaded enabled member.  `i` is the index of
the head of the list, `best` the best (index, load) seen so far. -/
def leastLoaded : List Member → Nat → Option (Nat × Nat) → Option (Nat × Nat)
  | [], _, best => best
  | m :: ms, i, best => leastLoaded ms (i + 1) (better i m best)

/-- `best` is the least-loaded enabled member of `pre`, lowest index first
(`none` when every member of `pre` is disabled). -/
def BestOf (pre : List Member) : Option (Nat × Nat) → Prop
  | none => ∀ m ∈ pre, m.disabled = true
  | some (bi, bl) => ∃ m, pre[bi]? = some m ∧ m.disabled = false ∧ m.load = bl ∧
      ∀ j mj, pre[j]? = some mj → mj.disabled = false → bl ≤ mj.load ∧ (j < bi → bl < mj.load)

/-- The member's counter is charged with weight `w`. -/
def Member.charge (m : Member) (w : Nat) : Member := { m with load := m.load + w }

/-- Optimistic accounting: member `i` of aggregated link `linkId` (whose current
value is `l`) is charged with the estimated flow weight. -/
def chargeMember (p : LinkAggregation) (linkId : Nat) (l : AggregatedLink) (i : Nat) :
    LinkAggregation :=
  let l1 : AggregatedLink :=
    { l with members := l.members.modify (fun m => m.charge p.flowWeight) i }
  { p with links := p.links.set linkId l1 }

/-- Modelled from the spec: `ChooseMember (flowKey, aggregatedLinkId)` of the
absent `QosController` ("select the member with the currently lowest
LinkLoadCounter among members not disabled by a port-status-down event; break
ties by lowest member index"; "update the chosen member's counter by an
estimated flow weight immediately").  Returns the chosen member index and the
updated policy state, or `none` when the link is unknown or all its members are
disabled. -/
def ChooseMember (p : LinkAggregation) (_flowKey : FlowKey) (linkId : Nat) :
    Option (Nat × LinkAggregation) :=
  match p.links[linkId]? with
  | none => none
  | some l =>
    match leastLoaded l.members 0 none with
    | none => none
    | some (i, _) => some (i, chargeMember p linkId l i)

/-- New flows crossing aggregated link `linkId`, admitted one after the other
with no statistics reconciliation in between: the member chosen for each and the
final policy state. -/
def admitFlows (linkId : Nat) : LinkAggregation → List FlowKey → List (Option Nat) × LinkAggregation
  | p, [] => ([], p)
  | p, f :: fs =>
    match ChooseMember p f linkId with
    | some (i, p1) => ((some i) :: (admitFlows linkId p1 fs).1, (admitFlows linkId p1 fs).2)
    | none => (none :: (admitFlows linkId p fs).1, (admitFlows linkId p fs).2)

/-! # Theorems -/

/-! ## Closed form of the topology -/

theorem hostBody_eq (i j : Nat) (e : Env) (h sw : Nat)
    (h1 : (e.hosts i)[j]? = some h) (h2 : e.switchNodes[i]? = some sw) :
    hostBody i j e = some (attachHost i h sw e) := by
  simp [hostBody, attachHost, csmaInstall, h1, h2]

theorem forLoop_hostBody (i : Nat) (hf : Nat → Nat) (sw : Nat) :
    ∀ (n j0 : Nat) (e : Env),
      (∀ j, j0 ≤ j → j < j0 + n → (e.hosts i)[j]? = some (hf j)) →
      e.switchNodes[i]? = some sw →
      forLoop (hostBody i) j0 n e = some (attachAll i hf sw (List.range' j0 n) e) := by
  intro n
  induction n with
  | zero => intro j0 e _ _; simp [forLoop, attachAll]
  | succ n ih =>
    intro j0 e hh hs
    have hb := hostBody_eq i j0 e (hf j0) sw (hh j0 (le_refl _) (by omega)) hs
    simp only [forLoop, hb, Option.some_bind, Option.bind_some, Option.bind]
    rw [ih (j0 + 1) (attachHost i (hf j0) sw e)
      (fun j hj1 hj2 => hh j (by omega) (by omega)) hs]
    simp [attachAll, List.range'_succ]

theorem attachAll_channels (i : Nat) (hf : Nat → Nat) (sw : Nat) (js : List Nat) :
    ∀ e : Env, (attachAll i hf sw js e).channels
      = e.channels ++ js.map (fun j => ⟨e.csmaDataRate, hf j, sw⟩) := by
  induction js with
  | nil => intro e; simp [attachAll]
  | cons j js ih =>
    intro e
    have := ih (attachHost i (hf j) sw e)
    simp only [attachAll, List.foldl_cons] at this ⊢
    rw [this]
    simp [attachHost, csmaInstall]

theorem attachAll_frame (i : Nat) (hf : Nat → Nat) (sw : Nat) (js : List Nat) :
    ∀ e : Env,
      (attachAll i hf sw js e).csmaDataRate = e.csmaDataRate ∧
      (attachAll i hf sw js e).switchNodes = e.switchNodes ∧
      (attachAll i hf sw js e).aggreNodes = e.aggreNodes ∧
      (attachAll i hf sw js e).coreNodes = e.coreNodes ∧
      (attachAll i hf sw js e).controllerNodes = e.controllerNodes ∧
      (attachAll i hf sw js e).hosts = e.hosts ∧
      (attachAll i hf sw js e).corePorts = e.corePorts ∧
      (attachAll i hf sw js e).aggrePorts = e.aggrePorts ∧
      (attachAll i hf sw js e).qosSwitches = e.qosSwitches ∧
      (attachAll i hf sw js e).learningSwitches = e.learningSwitches ∧
      (∀ k, k ≠ i → (attachAll i hf sw js e).switchPorts k = e.switchPorts k) ∧
      (∀ k, k ≠ i → (attachAll i hf sw js e).hostDevices k = e.hostDevices k) := by
  induction js with
  | nil => intro e; simp [attachAll]
  | cons j js ih =>
    intro e
    have := ih (attachHost i (hf j) sw e)
    simp only [attachAll, List.foldl_cons] at this ⊢
    obtain ⟨h1, h2, h3, h4, h5, h6, h7, h8, h9, h10, h11, h12⟩ := this
    refine ⟨h1, h2, h3, h4, h5, h6, h7, h8, h9, h10, ?_, ?_⟩
    · intro k hk; rw [h11 k hk]; simp [attachHost, csmaInstall, addAt, hk]
    · intro k hk; rw [h12 k hk]; simp [attachHost, csmaInstall, addAt, hk]


theorem wireSwitches_spec (c : Nat) : ∃ e, wireSwitches c = some e ∧
    e.csmaDataRate = rate100Mbps ∧
    e.channels = [⟨rate100Mbps, 10, 6⟩, ⟨rate100Mbps, 10, 6⟩, ⟨rate100Mbps, 10, 6⟩,
      ⟨rate100Mbps, 10, 6⟩, ⟨rate100Mbps, 6, 2⟩, ⟨rate100Mbps, 6, 2⟩, ⟨rate100Mbps, 7, 3⟩,
      ⟨rate100Mbps, 8, 4⟩, ⟨rate100Mbps, 9, 5⟩, ⟨rate100Mbps, 14 + c, 2⟩,
      ⟨rate100Mbps, 15 + c, 2⟩] ∧
    e.switchNodes = [2, 3, 4, 5] ∧ e.aggreNodes = [6, 7, 8, 9] ∧ e.coreNodes = [10, 11] ∧
    e.controllerNodes = [12, 13] ∧
    e.hosts 0 = [14 + c, 15 + c] ∧ e.hosts 1 = List.range' (16 + c) c ∧
    e.hosts 2 = List.range' (16 + 2 * c) c ∧ e.hosts 3 = List.range' (16 + 3 * c) c ∧
    e.corePorts 0 = [⟨10, 0⟩, ⟨10, 1⟩, ⟨10, 2⟩, ⟨10, 3⟩] ∧
    e.aggrePorts 0 = [⟨6, 0⟩, ⟨6, 4⟩, ⟨6, 5⟩] ∧
    e.aggrePorts 1 = [⟨6, 1⟩, ⟨7, 6⟩] ∧
    e.aggrePorts 2 = [⟨6, 2⟩, ⟨8, 7⟩] ∧
    e.aggrePorts 3 = [⟨6, 3⟩, ⟨9, 8⟩] ∧
    e.switchPorts 0 = [⟨2, 4⟩, ⟨2, 5⟩, ⟨2, 9⟩, ⟨2, 10⟩] ∧
    e.hostDevices 0 = [⟨14 + c, 9⟩, ⟨15 + c, 10⟩] ∧
    e.qosSwitches = [] ∧ e.learningSwitches = [] := by
  simp [wireSwitches, createNodes, setDataRate, connectCoreAggre, connectAggreBorder,
    connectAggreSwitch, connectServers, forLoop, coreAggreBody, aggreBorderBody, aggreSwitchBody,
    hostBody, csmaInstall, Env.empty, freshNodes, addAt, List.range'_succ]
  exact ⟨by omega, Or.inr (by omega), Or.inr (by omega), Or.inr (by omega), by omega⟩

theorem getElem?_freshRange (s n j : Nat) (h : j < n) : (List.range' s n)[j]? = some (s + j) := by
  rw [List.getElem?_eq_getElem (by simpa using h)]
  simp

theorem connectHosts_spec (c : Nat) (e : Env)
    (hsw : e.switchNodes = [2, 3, 4, 5])
    (h1 : e.hosts 1 = List.range' (16 + c) c)
    (h2 : e.hosts 2 = List.range' (16 + 2 * c) c)
    (h3 : e.hosts 3 = List.range' (16 + 3 * c) c) :
    connectHosts c e = some
      (attachAll 3 (fun j => 16 + 3 * c + j) 5 (List.range' 0 c)
        (attachAll 2 (fun j => 16 + 2 * c + j) 4 (List.range' 0 c)
          (attachAll 1 (fun j => 16 + 1 * c + j) 3 (List.range' 0 c) e))) := by
  have f1 := attachAll_frame 1 (fun j => 16 + 1 * c + j) 3 (List.range' 0 c) e
  have f2 := attachAll_frame 2 (fun j => 16 + 2 * c + j) 4 (List.range' 0 c)
    (attachAll 1 (fun j => 16 + 1 * c + j) 3 (List.range' 0 c) e)
  have l1 := forLoop_hostBody 1 (fun j => 16 + 1 * c + j) 3 c 0 e
    (by intro j _ hj; rw [h1, getElem?_freshRange _ _ _ (by omega)]; simp)
    (by rw [hsw]; rfl)
  have l2 := forLoop_hostBody 2 (fun j => 16 + 2 * c + j) 4 c 0
    (attachAll 1 (fun j => 16 + 1 * c + j) 3 (List.range' 0 c) e)
    (by intro j _ hj; rw [f1.2.2.2.2.2.1, h2, getElem?_freshRange _ _ _ (by omega)])
    (by rw [f1.2.1, hsw]; rfl)
  have l3 := forLoop_hostBody 3 (fun j => 16 + 3 * c + j) 5 c 0
    (attachAll 2 (fun j => 16 + 2 * c + j) 4 (List.range' 0 c)
      (attachAll 1 (fun j => 16 + 1 * c + j) 3 (List.range' 0 c) e))
    (by intro j _ hj; rw [f2.2.2.2.2.2.1, f1.2.2.2.2.2.1, h3, getElem?_freshRange _ _ _ (by omega)])
    (by rw [f2.2.1, f1.2.1, hsw]; rfl)
  simp only [connectHosts, forLoop, l1, l2, l3, Option.some_bind, Option.bind]


theorem installSwitches_spec (e : Env)
    (hct : e.controllerNodes = [12, 13]) (hco : e.coreNodes = [10, 11])
    (hag : e.aggreNodes = [6, 7, 8, 9]) (hsw : e.switchNodes = [2, 3, 4, 5]) :
    installSwitches e = some { e with
      qosController := some 12
      learningController := some 13
      qosSwitches := e.qosSwitches ++ [⟨10, e.corePorts 0⟩, ⟨6, e.aggrePorts 0⟩,
        ⟨7, e.aggrePorts 1⟩, ⟨8, e.aggrePorts 2⟩, ⟨9, e.aggrePorts 3⟩, ⟨2, e.switchPorts 0⟩]
      learningSwitches := e.learningSwitches ++ [⟨3, e.switchPorts 1⟩, ⟨4, e.switchPorts 2⟩,
        ⟨5, e.switchPorts 3⟩] } := by
  simp [installSwitches, qosInstallSwitch, learningInstallSwitch, hct, hco, hag, hsw]

theorem buildTopology_spec (c : Nat) : ∃ e, buildTopology c = some e ∧
    e.channels = fixedChannels c ++ (clientChannels c 1 ++ (clientChannels c 2 ++ clientChannels c 3)) ∧
    e.switchNodes = [2, 3, 4, 5] ∧ e.aggreNodes = [6, 7, 8, 9] ∧ e.coreNodes = [10, 11] ∧
    e.controllerNodes = [12, 13] ∧
    e.hosts 0 = [14 + c, 15 + c] ∧ e.hosts 1 = List.range' (16 + c) c ∧
    e.hosts 2 = List.range' (16 + 2 * c) c ∧ e.hosts 3 = List.range' (16 + 3 * c) c ∧
    e.switchPorts 0 = [⟨2, 4⟩, ⟨2, 5⟩, ⟨2, 9⟩, ⟨2, 10⟩] ∧
    e.hostDevices 0 = [⟨14 + c, 9⟩, ⟨15 + c, 10⟩] ∧
    e.qosController = some 12 ∧ e.learningController = some 13 ∧
    e.qosSwitches =
      [⟨10, [⟨10, 0⟩, ⟨10, 1⟩, ⟨10, 2⟩, ⟨10, 3⟩]⟩,
       ⟨6, [⟨6, 0⟩, ⟨6, 4⟩, ⟨6, 5⟩]⟩,
       ⟨7, [⟨6, 1⟩, ⟨7, 6⟩]⟩,
       ⟨8, [⟨6, 2⟩, ⟨8, 7⟩]⟩,
       ⟨9, [⟨6, 3⟩, ⟨9, 8⟩]⟩,
       ⟨2, [⟨2, 4⟩, ⟨2, 5⟩, ⟨2, 9⟩, ⟨2, 10⟩]⟩] ∧
    e.learningSwitches = [⟨3, e.switchPorts 1⟩, ⟨4, e.switchPorts 2⟩, ⟨5, e.switchPorts 3⟩] := by
  obtain ⟨e0, hw, hrate, hch, hsw, hag, hco, hct, hh0, hh1, hh2, hh3, hcp, hap0, hap1, hap2, hap3,
    hsp0, hhd0, hq, hl⟩ := wireSwitches_spec c
  have hc := connectHosts_spec c e0 hsw hh1 hh2 hh3
  have f1 := attachAll_frame 1 (fun j => 16 + 1 * c + j) 3 (List.range' 0 c) e0
  have g1 := attachAll_channels 1 (fun j => 16 + 1 * c + j) 3 (List.range' 0 c) e0
  generalize attachAll 1 (fun j => 16 + 1 * c + j) 3 (List.range' 0 c) e0 = e1 at hc f1 g1
  have f2 := attachAll_frame 2 (fun j => 16 + 2 * c + j) 4 (List.range' 0 c) e1
  have g2 := attachAll_channels 2 (fun j => 16 + 2 * c + j) 4 (List.range' 0 c) e1
  generalize attachAll 2 (fun j => 16 + 2 * c + j) 4 (List.range' 0 c) e1 = e2 at hc f2 g2
  have f3 := attachAll_frame 3 (fun j => 16 + 3 * c + j) 5 (List.range' 0 c) e2
  have g3 := attachAll_channels 3 (fun j => 16 + 3 * c + j) 5 (List.range' 0 c) e2
  generalize attachAll 3 (fun j => 16 + 3 * c + j) 5 (List.range' 0 c) e2 = e3 at hc f3 g3
  obtain ⟨a1, a2, a3, a4, a5, a6, a7, a8, a9, a10, a11, a12⟩ := f1
  obtain ⟨b1, b2, b3, b4, b5, b6, b7, b8, b9, b10, b11, b12⟩ := f2
  obtain ⟨c1, c2, c3, c4, c5, c6, c7, c8, c9, c10, c11, c12⟩ := f3
  have hi := installSwitches_spec e3 (by rw [c5, b5, a5, hct]) (by rw [c4, b4, a4, hco])
    (by rw [c3, b3, a3, hag]) (by rw [c2, b2, a2, hsw])
  refine ⟨_, by simp only [buildTopology, hw, hc, Option.some_bind, Option.bind, bind]; exact hi,
    ?_, ?_, ?_, ?_, ?_, ?_, ?_, ?_, ?_, ?_, ?_, rfl, rfl, ?_, ?_⟩
  · show e3.channels = _
    rw [g3, g2, g1, b1, a1, hrate, hch]
    simp [fixedChannels, clientChannels]
  · show e3.switchNodes = _
    rw [c2, b2, a2, hsw]
  · show e3.aggreNodes = _
    rw [c3, b3, a3, hag]
  · show e3.coreNodes = _
    rw [c4, b4, a4, hco]
  · show e3.controllerNodes = _
    rw [c5, b5, a5, hct]
  · show e3.hosts 0 = _
    rw [c6, b6, a6, hh0]
  · show e3.hosts 1 = _
    rw [c6, b6, a6, hh1]
  · show e3.hosts 2 = _
    rw [c6, b6, a6, hh2]
  · show e3.hosts 3 = _
    rw [c6, b6, a6, hh3]
  · show e3.switchPorts 0 = _
    rw [c11 0 (by decide), b11 0 (by decide), a11 0 (by decide), hsp0]
  · show e3.hostDevices 0 = _
    rw [c12 0 (by decide), b12 0 (by decide), a12 0 (by decide), hhd0]
  · show e3.qosSwitches ++ _ = _
    rw [c9, b9, a9, hq, c7, b7, a7, c8, b8, a8, hcp, hap0, hap1, hap2, hap3,
      c11 0 (by decide), b11 0 (by decide), a11 0 (by decide), hsp0]
    rfl
  · show e3.learningSwitches ++ _ = _
    rw [c10, b10, a10, hl]
    rfl

/-! ## Topology properties -/

theorem mem_clientChannels {c i : Nat} {ch : CsmaChannel} (h : ch ∈ clientChannels c i) :
    ch.dataRate = rate100Mbps ∧ ch.nodeB = 2 + i ∧ 16 + i * c ≤ ch.nodeA ∧
      ch.nodeA < 16 + i * c + c := by
  simp only [clientChannels, List.mem_map, List.mem_range'_1] at h
  obtain ⟨j, hj, rfl⟩ := h
  exact ⟨rfl, rfl, by simp, by simp; omega⟩

theorem countP_joins_clientChannels (c i a s : Nat) (hi : c ≤ i * c) (ha : a < 16 + c)
    (hs : s < 16 + c) : (clientChannels c i).countP (fun ch => joins ch a s) = 0 := by
  rw [List.countP_eq_zero]
  intro ch hch
  obtain ⟨_, _, h3, _⟩ := mem_clientChannels hch
  have e1 : ¬ (ch.nodeA = a) := by omega
  have e2 : ¬ (ch.nodeA = s) := by omega
  simp [joins, e1, e2]

theorem linkCount_switches (c a s : Nat) (e : Env) (ha : a < 14) (hs : s < 14)
    (hch : e.channels = fixedChannels c ++
      (clientChannels c 1 ++ (clientChannels c 2 ++ clientChannels c 3))) :
    linkCount e a s = (fixedChannels 0).countP (fun ch => joins ch a s) := by
  have e1 : ¬ (14 + c = a) := by omega
  have e2 : ¬ (14 + c = s) := by omega
  have e3 : ¬ (15 + c = a) := by omega
  have e4 : ¬ (15 + c = s) := by omega
  have e5 : ¬ (14 = a) := by omega
  have e6 : ¬ (14 = s) := by omega
  have e7 : ¬ (15 = a) := by omega
  have e8 : ¬ (15 = s) := by omega
  simp only [linkCount, hch, List.countP_append,
    countP_joins_clientChannels c 1 a s (by omega) (by omega) (by omega),
    countP_joins_clientChannels c 2 a s (by omega) (by omega) (by omega),
    countP_joins_clientChannels c 3 a s (by omega) (by omega) (by omega), Nat.add_zero]
  simp [fixedChannels, List.countP_cons, joins, e1, e2, e3, e4, e5, e6, e7, e8]


theorem getElem?_channels_lt (c k : Nat) (e : Env) (hk : k < 11)
    (hch : e.channels = fixedChannels c ++
      (clientChannels c 1 ++ (clientChannels c 2 ++ clientChannels c 3))) :
    e.channels[k]? = (fixedChannels c)[k]? := by
  rw [hch, List.getElem?_append_left (by simpa [fixedChannels] using hk)]

theorem joins_false_of_ge (c k a s : Nat) (e : Env) (ha : a < 16) (hs : s < 16) (hk : 11 ≤ k)
    (hch : e.channels = fixedChannels c ++
      (clientChannels c 1 ++ (clientChannels c 2 ++ clientChannels c 3)))
    (ch : CsmaChannel) (h : e.channels[k]? = some ch) : joins ch a s = false := by
  rw [hch, List.getElem?_append_right (by simpa [fixedChannels] using hk)] at h
  have hm := List.getElem?_mem h
  simp only [List.mem_append] at hm
  have key : ∀ i, ch ∈ clientChannels c i → joins ch a s = false := by
    intro i hi
    obtain ⟨_, _, h3, _⟩ := mem_clientChannels hi
    have e1 : ¬ (ch.nodeA = a) := by omega
    have e2 : ¬ (ch.nodeA = s) := by omega
    simp [joins, e1, e2]
  rcases hm with hm | hm | hm
  · exact key 1 hm
  · exact key 2 hm
  · exact key 3 hm

/-- C3: for every value of `clients`, the topology built by `main` has exactly
two links between aggregation switch node 0 and border switch node 0, every other
pair of an aggregation-layer and a border-layer switch node is joined by at most
one link, and both end devices of each of the two links were handed to an
`InstallSwitch` call of the QoS helper as a port of the switch on the node they
sit on. -/
theorem aggregated_link_has_two_members (clients : Nat) :
    ∃ e a0 s0, buildTopology clients = some e ∧
      e.aggreNodes[0]? = some a0 ∧ e.switchNodes[0]? = some s0 ∧
      linkCount e a0 s0 = 2 ∧
      (∀ a ∈ e.aggreNodes, ∀ s ∈ e.switchNodes, (a ≠ a0 ∨ s ≠ s0) → linkCount e a s ≤ 1) ∧
      (∀ k ch, e.channels[k]? = some ch → joins ch a0 s0 = true →
        portInstalled e.qosSwitches ⟨ch.nodeA, k⟩ = true ∧
        portInstalled e.qosSwitches ⟨ch.nodeB, k⟩ = true) := by
  obtain ⟨e, he, hch, hsw, hag, hco, hct, hh0, hh1, hh2, hh3, hsp0, hhd0, hqc, hlc, hq, hl⟩ :=
    buildTopology_spec clients
  refine ⟨e, 6, 2, he, by rw [hag]; rfl, by rw [hsw]; rfl, ?_, ?_, ?_⟩
  · rw [linkCount_switches clients 6 2 e (by decide) (by decide) hch]; decide
  · intro a ha s hs hne
    rw [hag] at ha
    rw [hsw] at hs
    simp only [List.mem_cons, List.mem_singleton, List.not_mem_nil, or_false] at ha hs
    rcases ha with rfl | rfl | rfl | rfl <;> rcases hs with rfl | rfl | rfl | rfl <;>
      first
        | (exfalso; revert hne; decide)
        | (rw [linkCount_switches clients _ _ e (by decide) (by decide) hch]; decide)
  · intro k ch hk hj
    by_cases hlt : k < 11
    · rw [getElem?_channels_lt clients k e hlt hch] at hk
      rw [hq]
      have hk11 : k < 11 := hlt
      interval_cases k <;> simp [fixedChannels] at hk <;> subst hk <;>
        first
          | decide
          | (exfalso; simp [joins] at hj; done)
          | (exfalso; simp [joins] at hj; omega)
    · rw [joins_false_of_ge clients k 6 2 e (by decide) (by decide) (by omega) hch ch hk] at hj
      exact absurd hj (by decide)


theorem dataRate_of_mem_channels (c : Nat) (e : Env)
    (hch : e.channels = fixedChannels c ++
      (clientChannels c 1 ++ (clientChannels c 2 ++ clientChannels c 3)))
    (ch : CsmaChannel) (h : ch ∈ e.channels) : ch.dataRate = rate100Mbps := by
  rw [hch] at h
  simp only [List.mem_append] at h
  rcases h with h | h | h | h
  · simp only [fixedChannels, List.mem_cons, List.mem_singleton, List.not_mem_nil, or_false] at h
    rcases h with rfl | rfl | rfl | rfl | rfl | rfl | rfl | rfl | rfl | rfl | rfl <;> rfl
  · exact (mem_clientChannels h).1
  · exact (mem_clientChannels h).1
  · exact (mem_clientChannels h).1

/-- C6 (behaviour of the code): for every value of `clients`, every link created
by `main` has a data rate of 100 Mbps; in particular the two links between
aggregation switch 0 and border switch 0 run at 100 Mbps, not at the 10 Mbps
announced by the file header and by the comment above the helper
configuration. -/
theorem aggregated_links_run_at_100Mbps (clients : Nat) :
    ∃ e a0 s0, buildTopology clients = some e ∧
      e.aggreNodes[0]? = some a0 ∧ e.switchNodes[0]? = some s0 ∧
      linkCount e a0 s0 = 2 ∧
      (∀ ch ∈ e.channels, ch.dataRate = rate100Mbps) ∧
      (∀ ch ∈ e.channels, joins ch a0 s0 = true → ch.dataRate ≠ rate10Mbps) := by
  obtain ⟨e, he, hch, hsw, hag, hco, hct, hh0, hh1, hh2, hh3, hsp0, hhd0, hqc, hlc, hq, hl⟩ :=
    buildTopology_spec clients
  refine ⟨e, 6, 2, he, by rw [hag]; rfl, by rw [hsw]; rfl, ?_, ?_, ?_⟩
  · rw [linkCount_switches clients 6 2 e (by decide) (by decide) hch]; decide
  · exact dataRate_of_mem_channels clients e hch
  · intro ch hmem _
    rw [dataRate_of_mem_channels clients e hch ch hmem]
    decide

/-- C8 (behaviour of the code): for every value of `clients`, the switch
installed on aggregation node 1 is handed, as its first port, a device that sits
on aggregation node 0; the property "every port sits on the node of its switch"
fails for the QoS helper, core switch 0 has four links to aggregation switch 0
and none to aggregation switches 1, 2 and 3. -/
theorem core_links_all_reach_aggregation_switch_0 (clients : Nat) :
    ∃ e core0 a0 a1 a2 a3, buildTopology clients = some e ∧
      e.coreNodes[0]? = some core0 ∧ e.aggreNodes = [a0, a1, a2, a3] ∧
      (∃ sw ∈ e.qosSwitches, ∃ d, sw.node = a1 ∧ sw.ports[0]? = some d ∧ d.node = a0 ∧
        d.node ≠ sw.node) ∧
      portsOnOwnNode e.qosSwitches = false ∧
      linkCount e core0 a0 = 4 ∧ linkCount e core0 a1 = 0 ∧ linkCount e core0 a2 = 0 ∧
      linkCount e core0 a3 = 0 := by
  obtain ⟨e, he, hch, hsw, hag, hco, hct, hh0, hh1, hh2, hh3, hsp0, hhd0, hqc, hlc, hq, hl⟩ :=
    buildTopology_spec clients
  refine ⟨e, 10, 6, 7, 8, 9, he, by rw [hco]; rfl, hag, ?_, by rw [hq]; decide, ?_, ?_, ?_, ?_⟩
  · rw [hq]
    exact ⟨⟨7, [⟨6, 1⟩, ⟨7, 6⟩]⟩, by decide, ⟨6, 1⟩, rfl, rfl, rfl, by decide⟩
  · rw [linkCount_switches clients 10 6 e (by decide) (by decide) hch]; decide
  · rw [linkCount_switches clients 10 7 e (by decide) (by decide) hch]; decide
  · rw [linkCount_switches clients 10 8 e (by decide) (by decide) hch]; decide
  · rw [linkCount_switches clients 10 9 e (by decide) (by decide) hch]; decide

/-- C7: for every value of `clients`, the border switch (`switchNodes.Get (0)`,
installed once, by the QoS helper, with `switchPorts[0]`) has exactly four ports;
ports 1 and 2 are the border-switch ends of the two distinct links to aggregation
switch 0 and ports 3 and 4 are the border-switch ends of the links to server 0 and
server 1 (`hosts[0].Get (0)` and `hosts[0].Get (1)`). -/
theorem border_switch_port_layout (clients : Nat) :
    ∃ e s0 a0 srv0 srv1 p1 p2 p3 p4, buildTopology clients = some e ∧
      e.switchNodes[0]? = some s0 ∧ e.aggreNodes[0]? = some a0 ∧
      (e.hosts 0)[0]? = some srv0 ∧ (e.hosts 0)[1]? = some srv1 ∧
      e.switchPorts 0 = [p1, p2, p3, p4] ∧
      (⟨s0, e.switchPorts 0⟩ : SwitchInstall) ∈ e.qosSwitches ∧
      (∀ sw ∈ e.qosSwitches ++ e.learningSwitches, sw.node = s0 → sw.ports = e.switchPorts 0) ∧
      endOf e p1 s0 a0 = true ∧ endOf e p2 s0 a0 = true ∧ p1.channel ≠ p2.channel ∧
      linkCount e a0 s0 = 2 ∧
      endOf e p3 s0 srv0 = true ∧ endOf e p4 s0 srv1 = true := by
  obtain ⟨e, he, hch, hsw, hag, hco, hct, hh0, hh1, hh2, hh3, hsp0, hhd0, hqc, hlc, hq, hl⟩ :=
    buildTopology_spec clients
  have g4 := getElem?_channels_lt clients 4 e (by decide) hch
  have g5 := getElem?_channels_lt clients 5 e (by decide) hch
  have g9 := getElem?_channels_lt clients 9 e (by decide) hch
  have g10 := getElem?_channels_lt clients 10 e (by decide) hch
  refine ⟨e, 2, 6, 14 + clients, 15 + clients, ⟨2, 4⟩, ⟨2, 5⟩, ⟨2, 9⟩, ⟨2, 10⟩, he,
    by rw [hsw]; rfl, by rw [hag]; rfl, by rw [hh0]; rfl, by rw [hh0]; rfl, hsp0, ?_, ?_,
    ?_, ?_, by decide, ?_, ?_, ?_⟩
  · rw [hq, hsp0]; decide
  · rw [hq, hl, hsp0]
    intro sw hmem hnode
    simp only [List.cons_append, List.nil_append, List.mem_cons, List.mem_singleton,
      List.not_mem_nil, or_false] at hmem
    rcases hmem with rfl | rfl | rfl | rfl | rfl | rfl | rfl | rfl | rfl <;>
      first
        | rfl
        | (exfalso; simp at hnode)
  · simp [endOf, g4, fixedChannels, joins]
  · simp [endOf, g5, fixedChannels, joins]
  · rw [linkCount_switches clients 6 2 e (by decide) (by decide) hch]; decide
  · simp [endOf, g9, fixedChannels, joins]
  · simp [endOf, g10, fixedChannels, joins]


theorem mem_clientHosts (c n : Nat) (e : Env)
    (hh1 : e.hosts 1 = List.range' (16 + c) c) (hh2 : e.hosts 2 = List.range' (16 + 2 * c) c)
    (hh3 : e.hosts 3 = List.range' (16 + 3 * c) c) :
    n ∈ clientHosts e ↔ 16 + c ≤ n ∧ n < 16 + 4 * c := by
  simp only [clientHosts, hh1, hh2, hh3, List.mem_append, List.mem_range'_1]
  omega

theorem hasClientHost_iff (c n : Nat) (e : Env)
    (hch : e.channels = fixedChannels c ++
      (clientChannels c 1 ++ (clientChannels c 2 ++ clientChannels c 3)))
    (hh1 : e.hosts 1 = List.range' (16 + c) c) (hh2 : e.hosts 2 = List.range' (16 + 2 * c) c)
    (hh3 : e.hosts 3 = List.range' (16 + 3 * c) c) :
    hasClientHost e n = true ↔ 0 < c ∧ (n = 3 ∨ n = 4 ∨ n = 5) := by
  have hm := fun k => mem_clientHosts c k e hh1 hh2 hh3
  simp only [hasClientHost, List.any_eq_true, Bool.or_eq_true, Bool.and_eq_true, beq_iff_eq,
    List.contains, List.elem_iff, hm]
  constructor
  · rintro ⟨ch, hmem, h⟩
    rw [hch] at hmem
    simp only [List.mem_append] at hmem
    have key : ∀ i, 1 ≤ i → i ≤ 3 → ch ∈ clientChannels c i → 0 < c ∧ n = 2 + i := by
      intro i hi1 hi3 hi
      obtain ⟨_, h2, h3, h4⟩ := mem_clientChannels hi
      rcases h with ⟨h5, _⟩ | ⟨_, h6, _⟩
      · exact ⟨by omega, by omega⟩
      · omega
    rcases hmem with hmem | hmem | hmem | hmem
    · simp only [fixedChannels, List.mem_cons, List.mem_singleton, List.not_mem_nil,
        or_false] at hmem
      rcases hmem with rfl | rfl | rfl | rfl | rfl | rfl | rfl | rfl | rfl | rfl | rfl <;>
        (exfalso; simp only at h; omega)
    · have := key 1 (by decide) (by decide) hmem; omega
    · have := key 2 (by decide) (by decide) hmem; omega
    · have := key 3 (by decide) (by decide) hmem; omega
  · rintro ⟨hc, hn⟩
    have hr : 0 ∈ List.range' 0 c := by simp [List.mem_range'_1]; omega
    rcases hn with rfl | rfl | rfl
    · refine ⟨⟨rate100Mbps, 16 + 1 * c + 0, 2 + 1⟩, ?_, Or.inl ⟨rfl, ?_⟩⟩
      · rw [hch]
        simp only [List.mem_append]
        exact Or.inr (Or.inl (List.mem_map.2 ⟨0, hr, rfl⟩))
      · show 16 + c ≤ 16 + 1 * c + 0 ∧ 16 + 1 * c + 0 < 16 + 4 * c; omega
    · refine ⟨⟨rate100Mbps, 16 + 2 * c + 0, 2 + 2⟩, ?_, Or.inl ⟨rfl, ?_⟩⟩
      · rw [hch]
        simp only [List.mem_append]
        exact Or.inr (Or.inr (Or.inl (List.mem_map.2 ⟨0, hr, rfl⟩)))
      · show 16 + c ≤ 16 + 2 * c + 0 ∧ 16 + 2 * c + 0 < 16 + 4 * c; omega
    · refine ⟨⟨rate100Mbps, 16 + 3 * c + 0, 2 + 3⟩, ?_, Or.inl ⟨rfl, ?_⟩⟩
      · rw [hch]
        simp only [List.mem_append]
        exact Or.inr (Or.inr (Or.inr (List.mem_map.2 ⟨0, hr, rfl⟩)))
      · show 16 + c ≤ 16 + 3 * c + 0 ∧ 16 + 3 * c + 0 < 16 + 4 * c; omega

theorem linkCount_server (c j : Nat) (e : Env) (hj : j = 14 ∨ j = 15)
    (hch : e.channels = fixedChannels c ++
      (clientChannels c 1 ++ (clientChannels c 2 ++ clientChannels c 3))) :
    linkCount e (j + c) 2 = 1 := by
  simp only [linkCount, hch, List.countP_append,
    countP_joins_clientChannels c 1 (j + c) 2 (by omega) (by omega) (by omega),
    countP_joins_clientChannels c 2 (j + c) 2 (by omega) (by omega) (by omega),
    countP_joins_clientChannels c 3 (j + c) 2 (by omega) (by omega) (by omega), Nat.add_zero]
  rcases hj with rfl | rfl <;> simp [fixedChannels, List.countP_cons, joins] <;>
    (split_ifs <;> omega)

/-- C5 (claim as stated fails): with `clients = 0` the learning helper still
installs switches (`switchNodes` 1, 2 and 3) although no client host is attached
to any switch, so the switches managed by the learning controller are not exactly
the switches client hosts are attached to. -/
theorem learning_switches_without_client_hosts :
    ∃ e, buildTopology 0 = some e ∧ ¬ learningManagesClientSwitches e := by
  obtain ⟨e, he, hch, hsw, hag, hco, hct, hh0, hh1, hh2, hh3, hsp0, hhd0, hqc, hlc, hq, hl⟩ :=
    buildTopology_spec 0
  refine ⟨e, he, fun h => ?_⟩
  have h3 : hasClientHost e 3 = true := (h 3).1 (by rw [hl]; simp [installedNodes])
  have := (hasClientHost_iff 0 3 e hch hh1 hh2 hh3).1 h3
  omega

/-- C5 (amended): for every value of `clients`, each switch node is installed
exactly once and by one helper only; the QoS helper installs core switch 0, the
four aggregation switches and the border switch `switchNodes.Get (0)`, to which
both servers and the two aggregated links attach; the learning helper installs
`switchNodes` 1, 2 and 3; every switch a client host is attached to is one of
these three, and when `clients` is at least 1 these three are exactly the
switches client hosts are attached to. -/
theorem switches_split_between_controllers (clients : Nat) :
    ∃ e core0 a0 s0 s1 s2 s3, buildTopology clients = some e ∧
      e.coreNodes[0]? = some core0 ∧ e.aggreNodes[0]? = some a0 ∧
      e.switchNodes = [s0, s1, s2, s3] ∧
      installedNodes e.qosSwitches = core0 :: e.aggreNodes ++ [s0] ∧
      installedNodes e.learningSwitches = [s1, s2, s3] ∧
      (installedNodes e.qosSwitches ++ installedNodes e.learningSwitches).Nodup ∧
      (∀ n ∈ installedNodes e.qosSwitches, n ∉ installedNodes e.learningSwitches) ∧
      (∀ srv ∈ e.hosts 0, linkCount e srv s0 = 1) ∧
      linkCount e a0 s0 = 2 ∧
      (∀ n, hasClientHost e n = true → n ∈ installedNodes e.learningSwitches) ∧
      (0 < clients → learningManagesClientSwitches e) := by
  obtain ⟨e, he, hch, hsw, hag, hco, hct, hh0, hh1, hh2, hh3, hsp0, hhd0, hqc, hlc, hq, hl⟩ :=
    buildTopology_spec clients
  have hqn : installedNodes e.qosSwitches = [10, 6, 7, 8, 9, 2] := by rw [hq]; rfl
  have hln : installedNodes e.learningSwitches = [3, 4, 5] := by rw [hl]; rfl
  have hcl := fun n => hasClientHost_iff clients n e hch hh1 hh2 hh3
  refine ⟨e, 10, 6, 2, 3, 4, 5, he, by rw [hco]; rfl, by rw [hag]; rfl, hsw,
    by rw [hqn, hag]; rfl, hln, by rw [hqn, hln]; decide, by rw [hqn, hln]; decide, ?_, ?_, ?_, ?_⟩
  · intro srv hsrv
    rw [hh0] at hsrv
    simp only [List.mem_cons, List.mem_singleton, List.not_mem_nil, or_false] at hsrv
    rcases hsrv with rfl | rfl
    · exact linkCount_server clients 14 e (Or.inl rfl) hch
    · exact linkCount_server clients 15 e (Or.inr rfl) hch
  · rw [linkCount_switches clients 6 2 e (by decide) (by decide) hch]; decide
  · intro n hn
    have := (hcl n).1 hn
    rw [hln]
    simp only [List.mem_cons, List.mem_singleton, List.not_mem_nil, or_false]
    exact this.2
  · intro hc n
    rw [hln, hcl n]
    simp only [List.mem_cons, List.mem_singleton, List.not_mem_nil, or_false]
    exact ⟨fun h => ⟨hc, h⟩, fun h => h.2⟩

/-- C5 (amended), instance with two clients per client switch. -/
theorem switches_split_between_controllers_witness :
    ∃ e, buildTopology 2 = some e ∧ learningManagesClientSwitches e := by
  obtain ⟨e, _, _, _, _, _, _, he, _, _, _, _, _, _, _, _, _, _, h⟩ :=
    switches_split_between_controllers 2
  exact ⟨e, he, h (by decide)⟩

/-- C4: for every value of `clients`, `hostDevices[0]` holds exactly the two
server devices, `Assign` gives them 10.1.1.2 and 10.1.1.3 in that order, the
first address 10.1.1.1 of the range is skipped (the helper starts one past it and
no server device receives it), and 10.1.1.1, port 9, is the remote endpoint of
the sender applications. -/
theorem server_addresses_skip_service_address (clients : Nat) :
    ∃ e srv0 srv1 d0 d1, buildTopology clients = some e ∧
      e.hosts 0 = [srv0, srv1] ∧
      e.hostDevices 0 = [d0, d1] ∧ d0.node = srv0 ∧ d1.node = srv1 ∧
      assignServerAddresses e = some [(d0, ipv4 10 1 1 2), (d1, ipv4 10 1 1 3)] ∧
      ipv4 10 1 1 2 = ipv4 10 1 1 1 + 1 ∧
      (∀ ifaces, assignServerAddresses e = some ifaces → ∀ p ∈ ifaces, p.2 ≠ ipv4 10 1 1 1) ∧
      serverAddr = ipv4 10 1 1 1 ∧ senderRemote = (ipv4 10 1 1 1, 9) := by
  obtain ⟨e, he, hch, hsw, hag, hco, hct, hh0, hh1, hh2, hh3, hsp0, hhd0, hqc, hlc, hq, hl⟩ :=
    buildTopology_spec clients
  have hassign : assignServerAddresses e
      = some [(⟨14 + clients, 9⟩, ipv4 10 1 1 2), (⟨15 + clients, 10⟩, ipv4 10 1 1 3)] := by
    have hb : setBase (ipv4 10 1 0 0) (ipv4 255 255 0 0) (ipv4 0 0 1 2)
        = ⟨2561, 4294901760, 258, 258, 16, 65534⟩ := by decide
    simp only [assignServerAddresses, stackNodes, hhd0, hh0, hb, assign, newAddress]
    simp
    decide
  refine ⟨e, 14 + clients, 15 + clients, ⟨14 + clients, 9⟩, ⟨15 + clients, 10⟩, he, hh0, hhd0,
    rfl, rfl, hassign, by decide, ?_, rfl, rfl⟩
  intro ifaces hif p hp
  rw [hassign] at hif
  cases hif
  simp only [List.mem_cons, List.mem_singleton, List.not_mem_nil, or_false] at hp
  rcases hp with rfl | rfl
  · exact (by decide : ipv4 10 1 1 2 ≠ ipv4 10 1 1 1)
  · exact (by decide : ipv4 10 1 1 3 ≠ ipv4 10 1 1 1)

/-! ## Link Aggregation Policy -/

theorem getElem?_snoc_cases {α : Type} (pre : List α) (m : α) (j : Nat) (x : α)
    (h : (pre ++ [m])[j]? = some x) :
    (j < pre.length ∧ pre[j]? = some x) ∨ (j = pre.length ∧ x = m) := by
  by_cases hj : j < pre.length
  · left
    rw [List.getElem?_append_left hj] at h
    exact ⟨hj, h⟩
  · right
    rw [List.getElem?_append_right (by omega)] at h
    have : j - pre.length = 0 := by
      by_contra hne
      obtain ⟨k, hk⟩ : ∃ k, j - pre.length = k + 1 := ⟨j - pre.length - 1, by omega⟩
      rw [hk] at h
      simp at h
    rw [this] at h
    simp at h
    exact ⟨by omega, h.symm⟩

theorem bestOf_snoc (pre : List Member) (m : Member) (best : Option (Nat × Nat))
    (h : BestOf pre best) :
    BestOf (pre ++ [m]) (better pre.length m best) := by
  unfold better
  have hlast : (pre ++ [m])[pre.length]? = some m := by
    rw [List.getElem?_append_right (le_refl _)]; simp
  by_cases hd : m.disabled = true
  · rw [if_pos hd]
    cases best with
    | none =>
      intro x hx
      rcases List.mem_append.1 hx with hx | hx
      · exact h x hx
      · rw [List.mem_singleton.1 hx]; exact hd
    | some b =>
      obtain ⟨bi, bl⟩ := b
      obtain ⟨mb, h1, h2, h3, h4⟩ := h
      have hbi : bi < pre.length := by
        by_contra hge
        rw [List.getElem?_eq_none (by omega)] at h1
        exact absurd h1 (by simp)
      refine ⟨mb, by rw [List.getElem?_append_left hbi]; exact h1, h2, h3, ?_⟩
      intro j mj hj hen
      rcases getElem?_snoc_cases pre m j mj hj with ⟨_, hj⟩ | ⟨_, rfl⟩
      · exact h4 j mj hj hen
      · rw [hd] at hen; exact absurd hen (by decide)
  · have hd : m.disabled = false := by simpa using hd
    rw [hd]
    simp only [Bool.false_eq_true, if_false]
    cases best with
    | none =>
      refine ⟨m, hlast, hd, rfl, ?_⟩
      intro j mj hj hen
      rcases getElem?_snoc_cases pre m j mj hj with ⟨_, hj⟩ | ⟨hjl, rfl⟩
      · have := h mj (List.getElem?_mem hj)
        rw [this] at hen; exact absurd hen (by decide)
      · exact ⟨le_refl _, fun hlt => absurd hlt (by omega)⟩
    | some b =>
      obtain ⟨bi, bl⟩ := b
      obtain ⟨mb, h1, h2, h3, h4⟩ := h
      have hbi : bi < pre.length := by
        by_contra hge
        rw [List.getElem?_eq_none (by omega)] at h1
        exact absurd h1 (by simp)
      by_cases hlt : m.load < bl
      · simp only [hlt, if_true]
        refine ⟨m, hlast, hd, rfl, ?_⟩
        intro j mj hj hen
        rcases getElem?_snoc_cases pre m j mj hj with ⟨_, hj⟩ | ⟨hjl, rfl⟩
        · have := (h4 j mj hj hen).1
          exact ⟨by omega, fun _ => by omega⟩
        · exact ⟨le_refl _, fun hlt => absurd hlt (by omega)⟩
      · simp only [hlt, if_false]
        refine ⟨mb, by rw [List.getElem?_append_left hbi]; exact h1, h2, h3, ?_⟩
        intro j mj hj hen
        rcases getElem?_snoc_cases pre m j mj hj with ⟨_, hj⟩ | ⟨hjl, rfl⟩
        · exact h4 j mj hj hen
        · exact ⟨by omega, fun hlt => absurd hlt (by omega)⟩

theorem leastLoaded_bestOf (ms : List Member) :
    ∀ (pre : List Member) (best : Option (Nat × Nat)), BestOf pre best →
      BestOf (pre ++ ms) (leastLoaded ms pre.length best) := by
  induction ms with
  | nil => intro pre best h; simpa [leastLoaded] using h
  | cons m ms ih =>
    intro pre best h
    have := ih (pre ++ [m]) _ (bestOf_snoc pre m best h)
    simpa [leastLoaded] using this

theorem leastLoaded_spec (ms : List Member) : BestOf ms (leastLoaded ms 0 none) := by
  have := leastLoaded_bestOf ms [] none (by intro m hm; cases hm)
  simpa using this


theorem ChooseMember_eq (p : LinkAggregation) (fk : FlowKey) (linkId : Nat) (l : AggregatedLink)
    (hl : p.links[linkId]? = some l) (i bl : Nat)
    (hb : leastLoaded l.members 0 none = some (i, bl)) :
    ChooseMember p fk linkId = some (i, chargeMember p linkId l i) := by
  simp [ChooseMember, hl, hb]

theorem chargeMember_link (p : LinkAggregation) (linkId : Nat) (l : AggregatedLink) (i : Nat)
    (hl : p.links[linkId]? = some l) :
    (chargeMember p linkId l i).links[linkId]?
      = some { l with members := l.members.modify (fun m => m.charge p.flowWeight) i } := by
  have hid : linkId < p.links.length := by
    by_contra hge
    rw [List.getElem?_eq_none (by omega)] at hl
    exact absurd hl (by simp)
  simp only [chargeMember]
  rw [List.getElem?_set_self hid]

theorem admitFlows_balanced (linkId w : Nat) (hw : 0 < w) (n : Nat) :
    ∀ (p : LinkAggregation) (l : AggregatedLink) (m0 m1 : Member) (fks : List FlowKey),
      p.flowWeight = w → p.links[linkId]? = some l → l.members = [m0, m1] →
      m0.disabled = false → m1.disabled = false → m0.load = m1.load → fks.length = 2 * n →
      (admitFlows linkId p fks).1 = (List.replicate n [some 0, some 1]).flatten := by
  induction n with
  | zero =>
    intro p l m0 m1 fks _ _ _ _ _ _ hlen
    have : fks = [] := List.length_eq_zero.1 (by omega)
    subst this
    rfl
  | succ n ih =>
    intro p l m0 m1 fks hpw hl hm h0 h1 hbal hlen
    obtain ⟨f1, rest, rfl⟩ : ∃ a r, fks = a :: r := by
      cases fks with
      | nil => simp at hlen
      | cons a r => exact ⟨a, r, rfl⟩
    obtain ⟨f2, fks, rfl⟩ : ∃ a r, rest = a :: r := by
      cases rest with
      | nil => simp at hlen; omega
      | cons a r => exact ⟨a, r, rfl⟩
    -- first flow: both members equally loaded, member 0 wins the tie
    have hb1 : leastLoaded l.members 0 none = some (0, m0.load) := by
      simp [hm, leastLoaded, better, h0, h1, hbal]
    have hc1 := ChooseMember_eq p f1 linkId l hl 0 m0.load hb1
    have hl1 : (chargeMember p linkId l 0).links[linkId]?
        = some { l with members := [m0.charge w, m1] } := by
      rw [chargeMember_link p linkId l 0 hl, hm, hpw]; rfl
    have hw1 : (chargeMember p linkId l 0).flowWeight = w := hpw
    generalize chargeMember p linkId l 0 = p1 at hc1 hl1 hw1
    -- second flow: member 1 is now strictly less loaded
    have hb2 : leastLoaded [m0.charge w, m1] 0 none = some (1, m1.load) := by
      have : m1.load < m0.load + w := by omega
      simp [leastLoaded, better, Member.charge, h0, h1, this]
    have hc2 := ChooseMember_eq p1 f2 linkId { l with members := [m0.charge w, m1] } hl1 1
      m1.load hb2
    have hl2 : (chargeMember p1 linkId { l with members := [m0.charge w, m1] } 1).links[linkId]?
        = some { l with members := [m0.charge w, m1.charge w] } := by
      rw [chargeMember_link p1 linkId _ 1 hl1, hw1]; rfl
    have hw2 : (chargeMember p1 linkId { l with members := [m0.charge w, m1] } 1).flowWeight
        = w := hw1
    generalize chargeMember p1 linkId { l with members := [m0.charge w, m1] } 1 = p2
      at hc2 hl2 hw2
    have hrec := ih p2 { l with members := [m0.charge w, m1.charge w] } (m0.charge w)
      (m1.charge w) fks hw2 hl2 rfl h0 h1 (by simp [Member.charge, hbal])
      (by simp at hlen; omega)
    simp only [admitFlows, hc1, hc2, hrec, List.replicate_succ, List.flatten_cons,
      List.cons_append, List.nil_append]

/-- C2: for every aggregated link of the policy and every assignment of load
counters, `ChooseMember` fails exactly when every member is disabled; otherwise it
returns the lowest-index member among the enabled members of minimal
`LinkLoadCounter` and adds the estimated flow weight to that member's counter at
once, leaving the other members, the other links and the weight unchanged.
Consequently, for a positive flow weight, six new flows admitted in sequence on a
link with two enabled members at zero load go alternately to member 0 and member 1:
three flows each. -/
theorem ChooseMember_picks_least_loaded (p : LinkAggregation) (linkId : Nat)
    (l : AggregatedLink) (hl : p.links[linkId]? = some l) :
    (∀ fk, (∀ m ∈ l.members, m.disabled = true) → ChooseMember p fk linkId = none) ∧
    (∀ fk, (∃ m ∈ l.members, m.disabled = false) →
      ∃ i m p1 l1, ChooseMember p fk linkId = some (i, p1) ∧
        l.members[i]? = some m ∧ m.disabled = false ∧
        (∀ j mj, l.members[j]? = some mj → mj.disabled = false →
          m.load ≤ mj.load ∧ (j < i → m.load < mj.load)) ∧
        p1.links[linkId]? = some l1 ∧
        l1.members[i]? = some { m with load := m.load + p.flowWeight } ∧
        (∀ j, j ≠ i → l1.members[j]? = l.members[j]?) ∧
        (∀ k, k ≠ linkId → p1.links[k]? = p.links[k]?) ∧
        p1.flowWeight = p.flowWeight) ∧
    (∀ m0 m1 fks, l.members = [m0, m1] → m0.disabled = false → m1.disabled = false →
      m0.load = 0 → m1.load = 0 → 0 < p.flowWeight → fks.length = 6 →
      (admitFlows linkId p fks).1 = [some 0, some 1, some 0, some 1, some 0, some 1] ∧
      assignedTo (admitFlows linkId p fks).1 0 = 3 ∧
      assignedTo (admitFlows linkId p fks).1 1 = 3) := by
  have hspec := leastLoaded_spec l.members
  refine ⟨?_, ?_, ?_⟩
  · intro fk hall
    cases hb : leastLoaded l.members 0 none with
    | none => simp [ChooseMember, hl, hb]
    | some b =>
      obtain ⟨bi, bl⟩ := b
      rw [hb] at hspec
      obtain ⟨m, h1, h2, _⟩ := hspec
      have := hall m (List.getElem?_mem h1)
      rw [this] at h2
      exact absurd h2 (by decide)
  · rintro fk ⟨m, hm, hen⟩
    cases hb : leastLoaded l.members 0 none with
    | none =>
      rw [hb] at hspec
      have := hspec m hm
      rw [this] at hen
      exact absurd hen (by decide)
    | some b =>
      obtain ⟨bi, bl⟩ := b
      rw [hb] at hspec
      obtain ⟨mb, h1, h2, h3, h4⟩ := hspec
      refine ⟨bi, mb, chargeMember p linkId l bi, _, ChooseMember_eq p fk linkId l hl bi bl hb,
        h1, h2, ?_, chargeMember_link p linkId l bi hl, ?_, ?_, ?_, rfl⟩
      · intro j mj hj hej
        have := h4 j mj hj hej
        rw [h3]
        exact this
      · simp [List.getElem?_modify_eq, h1, Member.charge]
      · intro j hj
        simp [List.getElem?_modify_ne _ _ (Ne.symm hj)]
      · intro k hk
        simp [chargeMember, List.getElem?_set_ne (Ne.symm hk)]
  · intro m0 m1 fks hm h0 h1 hz0 hz1 hw hlen
    have := admitFlows_balanced linkId p.flowWeight hw 3 p l m0 m1 fks rfl hl hm h0 h1
      (by rw [hz0, hz1]) (by rw [hlen])
    rw [this]
    exact ⟨rfl, by decide, by decide⟩

/-- C2, instance: one aggregated link with two enabled members at zero load,
flow weight 1500, six flows. -/
theorem ChooseMember_picks_least_loaded_witness :
    (admitFlows 0 ⟨[⟨1, 2, [⟨1, 1, 0, false⟩, ⟨2, 2, 0, false⟩]⟩], 1500⟩
        (List.replicate 6 ⟨0, 0, 6, 0, 9⟩)).1
      = [some 0, some 1, some 0, some 1, some 0, some 1] :=
  ((ChooseMember_picks_least_loaded ⟨[⟨1, 2, [⟨1, 1, 0, false⟩, ⟨2, 2, 0, false⟩]⟩], 1500⟩ 0
    ⟨1, 2, [⟨1, 1, 0, false⟩, ⟨2, 2, 0, false⟩]⟩ rfl).2.2
    ⟨1, 1, 0, false⟩ ⟨2, 2, 0, false⟩ (List.replicate 6 ⟨0, 0, 6, 0, 9⟩)
    rfl rfl rfl rfl rfl (by decide) rfl).1

/-! ## Load Balancing Policy -/

theorem healthyBelow_succ (servers : List Backend) (q : Nat) :
    healthyBelow servers (q + 1)
      = healthyBelow servers q + (if isHealthy servers q then 1 else 0) := by
  unfold healthyBelow
  rw [List.range_succ, List.filter_append, List.length_append]
  by_cases h : isHealthy servers q = true <;> simp [List.filter_cons, h]

theorem healthyBelow_length (servers : List Backend) :
    healthyBelow servers servers.length = (healthyServers servers).length := rfl

theorem succ_div_mod (n r : Nat) (hn : 0 < n) :
    (r % n + 1 < n ∧ (r + 1) / n = r / n ∧ (r + 1) % n = r % n + 1) ∨
    (r % n + 1 = n ∧ (r + 1) / n = r / n + 1 ∧ (r + 1) % n = 0) := by
  have hlt := Nat.mod_lt r hn
  have hdm := Nat.div_add_mod r n
  by_cases h : r % n + 1 < n
  · left
    have e : r + 1 = (r % n + 1) + n * (r / n) := by omega
    refine ⟨h, ?_, ?_⟩
    · rw [e, Nat.add_mul_div_left _ _ hn, Nat.div_eq_of_lt h, Nat.zero_add]
    · rw [e, Nat.add_mul_mod_self_left, Nat.mod_eq_of_lt h]
  · right
    have h1 : r % n + 1 = n := by omega
    have e : r + 1 = n * (r / n + 1) := by
      rw [Nat.mul_add, Nat.mul_one]; omega
    refine ⟨h1, ?_, ?_⟩
    · rw [e, Nat.mul_div_cancel_left _ hn]
    · rw [e, Nat.mul_mod_right]

theorem rotationRank_succ (servers : List Backend) (r : Nat) (hn : 0 < servers.length) :
    rotationRank servers (r + 1) = rotationRank servers r
      + (if isHealthy servers (r % servers.length) then 1 else 0) := by
  unfold rotationRank
  rcases succ_div_mod servers.length r hn with ⟨_, h2, h3⟩ | ⟨h1, h2, h3⟩
  · rw [h2, h3, healthyBelow_succ]; omega
  · have hb := healthyBelow_succ servers (r % servers.length)
    rw [h1, healthyBelow_length] at hb
    rw [h2, h3, Nat.add_mul, Nat.one_mul]
    have h0 : healthyBelow servers 0 = 0 := rfl
    rw [h0]; omega

theorem rotationRank_zero (servers : List Backend) : rotationRank servers 0 = 0 := by
  simp [rotationRank, healthyBelow]

theorem rotationRank_add_length (servers : List Backend) (r : Nat) (hn : 0 < servers.length) :
    rotationRank servers (r + servers.length)
      = rotationRank servers r + (healthyServers servers).length := by
  unfold rotationRank
  rw [Nat.add_div_right _ hn, Nat.add_mod_right, Nat.succ_mul]; omega

theorem healthy_getElem? (servers : List Backend) (q : Nat) (hq : isHealthy servers q = true) :
    ∀ n, q < n → ((List.range n).filter (isHealthy servers))[healthyBelow servers q]? = some q := by
  intro n
  induction n with
  | zero => intro h; omega
  | succ n ih =>
    intro hlt
    rw [List.range_succ, List.filter_append]
    by_cases hqn : q < n
    · have := ih hqn
      have hlen : healthyBelow servers q < ((List.range n).filter (isHealthy servers)).length := by
        by_contra hge
        rw [List.getElem?_eq_none (by omega)] at this
        exact absurd this (by simp)
      rw [List.getElem?_append_left hlen]
      exact this
    · have : q = n := by omega
      subst this
      rw [List.getElem?_append_right (by unfold healthyBelow; exact le_refl _)]
      simp [healthyBelow, List.filter_cons, hq]

theorem isHealthy_lt (servers : List Backend) (q : Nat) (hq : isHealthy servers q = true) :
    q < servers.length := by
  by_contra hge
  simp [isHealthy, List.getElem?_eq_none (Nat.le_of_not_lt hge)] at hq

theorem healthyServers_getElem? (servers : List Backend) (q : Nat)
    (hq : isHealthy servers q = true) :
    (healthyServers servers)[healthyBelow servers q]? = some q :=
  healthy_getElem? servers q hq servers.length (isHealthy_lt servers q hq)

theorem healthyBelow_lt (servers : List Backend) (q : Nat) (hq : isHealthy servers q = true) :
    healthyBelow servers q < (healthyServers servers).length := by
  have := healthyServers_getElem? servers q hq
  by_contra hge
  rw [List.getElem?_eq_none (by omega)] at this
  exact absurd this (by simp)


theorem rotate_none (servers : List Backend) (hn : 0 < servers.length) (fuel : Nat) :
    ∀ r, rotate servers fuel r = none →
      rotationRank servers (r + fuel) = rotationRank servers r := by
  induction fuel with
  | zero => intro r _; rfl
  | succ fuel ih =>
    intro r h
    by_cases hh : isHealthy servers (r % servers.length) = true
    · simp [rotate, hh] at h
    · simp only [rotate, hh, Bool.false_eq_true, if_false] at h
      have := ih (r + 1) h
      rw [rotationRank_succ servers r hn] at this
      simp only [hh, Bool.false_eq_true, if_false, Nat.add_zero] at this
      rw [← this]
      congr 1
      omega

theorem rotate_some (servers : List Backend) (hn : 0 < servers.length) (fuel : Nat) :
    ∀ r i r1, rotate servers fuel r = some (i, r1) →
      ∃ p, r1 = p + 1 ∧ i = p % servers.length ∧ isHealthy servers i = true ∧
        rotationRank servers p = rotationRank servers r := by
  induction fuel with
  | zero => intro r i r1 h; simp [rotate] at h
  | succ fuel ih =>
    intro r i r1 h
    by_cases hh : isHealthy servers (r % servers.length) = true
    · simp only [rotate, hh, if_true, Option.some.injEq, Prod.mk.injEq] at h
      exact ⟨r, h.2.symm, h.1.symm, by rw [← h.1]; exact hh, rfl⟩
    · simp only [rotate, hh, Bool.false_eq_true, if_false] at h
      obtain ⟨p, h1, h2, h3, h4⟩ := ih (r + 1) i r1 h
      refine ⟨p, h1, h2, h3, ?_⟩
      rw [h4, rotationRank_succ servers r hn]
      simp [hh]

theorem length_pos_of_healthy (servers : List Backend)
    (hk : 0 < (healthyServers servers).length) : 0 < servers.length := by
  by_contra h
  have h0 : servers.length = 0 := by omega
  simp [healthyServers, h0] at hk

theorem ChooseServer_spec (servers : List Backend) (r conn : Nat)
    (hk : 0 < (healthyServers servers).length) :
    ∃ i r1, ChooseServer ⟨servers, r⟩ conn = some (i, ⟨servers, r1⟩) ∧
      (healthyServers servers)[rotationRank servers r % (healthyServers servers).length]? = some i ∧
      rotationRank servers r1 = rotationRank servers r + 1 := by
  have hn := length_pos_of_healthy servers hk
  cases h : rotate servers servers.length r with
  | none =>
    have h1 := rotate_none servers hn servers.length r h
    rw [rotationRank_add_length servers r hn] at h1
    omega
  | some b =>
    obtain ⟨i, r1⟩ := b
    obtain ⟨p, h1, h2, h3, h4⟩ := rotate_some servers hn servers.length r i r1 h
    refine ⟨i, r1, by simp [ChooseServer, h], ?_, ?_⟩
    · have hlt := healthyBelow_lt servers i h3
      have hget := healthyServers_getElem? servers i h3
      have : rotationRank servers r % (healthyServers servers).length = healthyBelow servers i := by
        rw [← h4, rotationRank, ← h2, Nat.mul_comm, Nat.mul_add_mod, Nat.mod_eq_of_lt hlt]
      rw [this]
      exact hget
    · rw [h1, rotationRank_succ servers p hn, ← h2, h3, h4]
      simp

theorem admitConnections_trace (servers : List Backend)
    (hk : 0 < (healthyServers servers).length) (conns : List Nat) :
    ∀ r, (admitConnections ⟨servers, r⟩ conns).1
      = (List.range conns.length).map (fun n =>
          (healthyServers servers)[(rotationRank servers r + n) % (healthyServers servers).length]?) := by
  induction conns with
  | nil => intro r; rfl
  | cons c cs ih =>
    intro r
    obtain ⟨i, r1, h1, h2, h3⟩ := ChooseServer_spec servers r c hk
    simp only [admitConnections, h1, ih r1, h3, List.length_cons, List.range_succ_eq_map,
      List.map_cons, List.map_map, Nat.add_zero, h2]
    congr 1
    apply List.map_congr_left
    intro n _
    simp only [Function.comp, Nat.succ_eq_add_one]
    congr 2
    omega


theorem shift_modEq (k c a n : Nat) (hk : 0 < k) (ha : a < k) :
    (c + n) % k = a ↔ n ≡ a + c * (k - 1) [MOD k] := by
  have e1 : c + (a + c * (k - 1)) = a + k * c := by
    obtain ⟨j, rfl⟩ : ∃ j, k = j + 1 := ⟨k - 1, by omega⟩
    simp only [Nat.add_sub_cancel]
    rw [Nat.add_mul, Nat.one_mul, Nat.mul_comm c j]; omega
  have e2 : c + (a + c * (k - 1)) ≡ a [MOD k] := by
    rw [e1]
    show (a + k * c) % k = a % k
    rw [Nat.add_mul_mod_self_left]
  constructor
  · intro h
    have h1 : c + n ≡ a [MOD k] := by
      show (c + n) % k = a % k
      rw [h, Nat.mod_eq_of_lt ha]
    exact Nat.ModEq.add_left_cancel' c (h1.trans e2.symm)
  · intro h
    have h1 : c + n ≡ a [MOD k] := (Nat.ModEq.add_left c h).trans e2
    have h2 : (c + n) % k = a % k := h1
    rw [h2, Nat.mod_eq_of_lt ha]

theorem countP_shift (k c a M : Nat) (hk : 0 < k) (ha : a < k) :
    ∃ v, (List.range M).countP (fun n => decide ((c + n) % k = a))
      = M / k + if v % k < M % k then 1 else 0 := by
  refine ⟨a + c * (k - 1), ?_⟩
  rw [← Nat.count_modEq_card M hk (a + c * (k - 1))]
  unfold Nat.count
  apply List.countP_congr
  intro n _
  simp only [decide_eq_true_eq]
  exact shift_modEq k c a n hk ha

theorem healthyServers_nodup (servers : List Backend) : (healthyServers servers).Nodup :=
  (List.nodup_range servers.length).filter _

theorem assignedTo_trace (servers : List Backend) (c M i : Nat)
    (hi : isHealthy servers i = true) :
    ∃ v, assignedTo ((List.range M).map (fun n =>
        (healthyServers servers)[(c + n) % (healthyServers servers).length]?)) i
      = M / (healthyServers servers).length
        + if v % (healthyServers servers).length < M % (healthyServers servers).length
          then 1 else 0 := by
  have hlt := healthyBelow_lt servers i hi
  have hget := healthyServers_getElem? servers i hi
  have hk : 0 < (healthyServers servers).length := by omega
  obtain ⟨v, hv⟩ := countP_shift (healthyServers servers).length c (healthyBelow servers i) M hk hlt
  refine ⟨v, ?_⟩
  rw [← hv, assignedTo, List.count_eq_countP, List.countP_map]
  apply List.countP_congr
  intro n _
  have hx : (c + n) % (healthyServers servers).length < (healthyServers servers).length :=
    Nat.mod_lt _ hk
  simp only [Function.comp, beq_iff_eq, decide_eq_true_eq]
  rw [List.getElem?_eq_getElem hx]
  rw [List.getElem?_eq_getElem hlt] at hget
  constructor
  · intro h
    have h1 : (healthyServers servers)[(c + n) % (healthyServers servers).length]
        = (healthyServers servers)[healthyBelow servers i] := by
      rw [Option.some.inj h, Option.some.inj hget]
    exact ((healthyServers_nodup servers).getElem_inj_iff).1 h1
  · intro h
    rw [← hget]
    congr 1
    simp only [h]


/-- C1: with `k ≥ 2` healthy servers, the policy started at controller start-up
assigns the `n`-th new connection (0-based) to the healthy server at rotation
index `n mod k`, dropping none; and from any rotation state, after every prefix
of the sequence, the numbers of connections assigned to any two healthy servers
differ by at most 1. -/
theorem ChooseServer_round_robin (servers : List Backend) (k : Nat)
    (hk : (healthyServers servers).length = k) (h2 : 2 ≤ k) (conns : List Nat) :
    (admitConnections (LoadBalancer.init servers) conns).1
      = (List.range conns.length).map (fun n => (healthyServers servers)[n % k]?) ∧
    (∀ n, n < conns.length → ∃ i, (healthyServers servers)[n % k]? = some i ∧
      isHealthy servers i = true ∧
      (admitConnections (LoadBalancer.init servers) conns).1[n]? = some (some i)) ∧
    (∀ r m i j, isHealthy servers i = true → isHealthy servers j = true →
      assignedTo ((admitConnections ⟨servers, r⟩ conns).1.take m) i
        ≤ assignedTo ((admitConnections ⟨servers, r⟩ conns).1.take m) j + 1) := by
  have hpos : 0 < (healthyServers servers).length := by omega
  have htrace : (admitConnections (LoadBalancer.init servers) conns).1
      = (List.range conns.length).map (fun n => (healthyServers servers)[n % k]?) := by
    have := admitConnections_trace servers hpos conns 0
    rw [rotationRank_zero, hk] at this
    simpa [LoadBalancer.init] using this
  refine ⟨htrace, ?_, ?_⟩
  · intro n hn
    have hlt : n % k < (healthyServers servers).length := by
      rw [hk]; exact Nat.mod_lt _ (by omega)
    refine ⟨(healthyServers servers)[n % k], List.getElem?_eq_getElem hlt, ?_, ?_⟩
    · have hmem : (healthyServers servers)[n % k] ∈ healthyServers servers :=
        List.getElem_mem hlt
      exact (List.mem_filter.1 hmem).2
    · rw [htrace, List.getElem?_map, List.getElem?_range hn]
      simp [List.getElem?_eq_getElem hlt]
  · intro r m i j hi hj
    rw [admitConnections_trace servers hpos conns r, ← List.map_take, List.take_range]
    obtain ⟨v, hv⟩ := assignedTo_trace servers (rotationRank servers r) (min m conns.length) i hi
    obtain ⟨w, hw⟩ := assignedTo_trace servers (rotationRank servers r) (min m conns.length) j hj
    rw [hv, hw]
    split_ifs <;> omega

/-- C1, instance (scenario A): two healthy servers and four new connections give
the servers `[S0, S1, S0, S1]`. -/
theorem ChooseServer_round_robin_witness :
    (admitConnections (LoadBalancer.init [⟨167837954, true⟩, ⟨167837955, true⟩])
        [11, 12, 13, 14]).1 = [some 0, some 1, some 0, some 1] :=
  (ChooseServer_round_robin [⟨167837954, true⟩, ⟨167837955, true⟩] 2 (by decide) (by decide)
    [11, 12, 13, 14]).1.trans (by decide)

end Qos4
